import Mathlib

/-!
Verification of the charvel_db storage layer (pkg/sql/sql.go).

The Go code is shallowly embedded: bytes are `Nat` (values < 256 where the
code forces this via truncation), Go `int32` is `Int` with explicit
`% 2^32` arithmetic at the serialization boundary, the backing file is a
`List Nat` of bytes, and the in-memory page cache is a function
`Nat → Nat → Nat` from page index and byte offset to the cached byte.
Stateful Go methods become explicit state-passing functions.
-/

set_option autoImplicit false

namespace Charvel

/-! ### Constants (sql.go lines 15-21 and 101-107) -/

def idSize : Nat := 4

def usernameSize : Nat := 32

def emailSize : Nat := 255

/-- `rowSize = idSize + usernameSize + emailSize` (= 291). -/
def rowSize : Nat := idSize + usernameSize + emailSize

def pageConstraintSize : Nat := 4096

def tableMaxPages : Nat := 100

/-- `rowsPerPage = pageConstraintSize / rowSize` (= 14, integer division). -/
def rowsPerPage : Nat := pageConstraintSize / rowSize

/-- `actualPageSize = rowsPerPage * rowSize` (= 4074). -/
def actualPageSize : Nat := rowsPerPage * rowSize

/-- `tableMaxRows = rowsPerPage * tableMaxPages` (= 1400).  Declared in the
source but never consulted by `Table.Append`. -/
def tableMaxRows : Nat := rowsPerPage * tableMaxPages

/-! ### Row (sql.go lines 25-29)

Go's `Row` is `{ID int32; Username [32]byte; Email [255]byte}`.  The fixed
byte arrays become lists whose length-32 / length-255 invariants, together
with the `int32` range of `ID`, form the well-formedness predicate `Row.WF`
(automatic from the Go types, explicit here). -/

structure Row where
  ID : Int
  Username : List Nat
  Email : List Nat
deriving DecidableEq

/-- Well-formedness of a `Row`: exactly what the Go struct types enforce. -/
def Row.WF (r : Row) : Prop :=
  -2147483648 ≤ r.ID ∧ r.ID < 2147483648 ∧
    r.Username.length = usernameSize ∧ r.Email.length = emailSize

instance (r : Row) : Decidable r.WF := by
  unfold Row.WF; infer_instance

/-! ### int32 big-endian codec (binary.Write / binary.Read, BigEndian) -/

/-- Big-endian 4-byte encoding of an `int32`, as `binary.Write` with
`binary.BigEndian` emits for a Go `int32` (two's complement). -/
def int32be (id : Int) : List Nat :=
  let n : Nat := (id % 4294967296).toNat
  [n / 16777216 % 256, n / 65536 % 256, n / 256 % 256, n % 256]

/-- Big-endian 4-byte decoding to an `int32`, as `binary.Read` with
`binary.BigEndian` fills a Go `int32` (two's complement). -/
def decodeInt32 (bs : List Nat) : Int :=
  let n : Nat :=
    bs.getD 0 0 * 16777216 + bs.getD 1 0 * 65536 + bs.getD 2 0 * 256 + bs.getD 3 0
  if n < 2147483648 then (n : Int) else (n : Int) - 4294967296

/-! ### Row.Serialize (sql.go lines 46-53) -/

/-- `Row.Serialize`: 4-byte big-endian id, then the 32 username bytes, then
the 255 email bytes. -/
def Row.Serialize (r : Row) : List Nat :=
  int32be r.ID ++ r.Username ++ r.Email

/-! ### DeserializeRow (sql.go lines 78-99)

The Go signature is `DeserializeRow(rowBytes *[rowSize]byte) *Row`: the
parameter type admits buffers of exactly `rowSize` = 291 bytes and nothing
else.  `DeserializeRow` below is the body on such a buffer (4-byte
big-endian id via `binary.Read`, then `Next(32)` and `Next(255)` copied
into the zero-initialised fixed arrays).  `DeserializeRow?` makes the
static domain restriction explicit over arbitrary byte lists: `none` marks
a call that the Go type system rejects at compile time (the spec's
`InvalidBuffer` contract violation); no runtime error value exists in the
source. -/

def DeserializeRow (b : List Nat) : Row :=
  { ID := decodeInt32 (b.take idSize)
    Username := (b.drop idSize).take usernameSize
    Email := (b.drop (idSize + usernameSize)).take emailSize }

def DeserializeRow? (b : List Nat) : Option Row :=
  if b.length = rowSize then some (DeserializeRow b) else none

/-! ### NewRow (sql.go lines 58-73)

Go iterates `for i, char := range name` over a string: `i` is the byte
offset of the rune's first byte in the UTF-8 encoding and `char` is the
rune (Unicode code point); `byte(char)` keeps the low 8 bits.  A Go string
is modelled as its list of runes (`List Nat` of code points); `utf8Len`
gives each rune's encoded width so that the byte offsets advance exactly
as Go's `range` does. -/

/-- Number of bytes in the UTF-8 encoding of a code point. -/
def utf8Len (c : Nat) : Nat :=
  if c < 128 then 1 else if c < 2048 then 2 else if c < 65536 then 3 else 4

/-- The UTF-8 byte sequence of a Go string given as its list of runes.
Used to speak about "the input's bytes" when relating `NewRow` to its
string argument. -/
def utf8Encode : List Nat → List Nat
  | [] => []
  | c :: rest =>
      (if c < 128 then [c]
       else if c < 2048 then [192 + c / 64, 128 + c % 64]
       else if c < 65536 then [224 + c / 4096, 128 + c / 64 % 64, 128 + c % 64]
       else [240 + c / 262144, 128 + c / 4096 % 64, 128 + c / 64 % 64, 128 + c % 64])
        ++ utf8Encode rest

/-- The field-filling loop of `NewRow`: starting from the zero-initialised
fixed array `field`, write `byte(char)` at the byte offset of each rune,
breaking as soon as the offset reaches the field capacity. -/
def fillField (field : List Nat) (off cap : Nat) : List Nat → List Nat
  | [] => field
  | c :: rest =>
      if cap ≤ off then field
      else fillField (field.set off (c % 256)) (off + utf8Len c) cap rest

/-- `NewRow(id, name, email)`: zero `Row` with the id set and each text
field filled by the range loop. -/
def NewRow (id : Int) (name email : List Nat) : Row :=
  { ID := id
    Username := fillField (List.replicate usernameSize 0) 0 usernameSize name
    Email := fillField (List.replicate emailSize 0) 0 emailSize email }

/-! ### Pager (sql.go lines 115-206)

`pageCache` is the `[tableMaxPages][actualPageSize]byte` array as a
function from page index and byte offset to the cached byte (zero
initialised); `cacheIndex` is the `map[int]bool` of loaded flags (absent
keys read as `false`); `file` is the full byte content of the backing
file and `fileReadSize` the file size recorded by `NewPager` at open
time (never updated afterwards, exactly as in the source). -/

/-- `TableAddress` (sql.go lines 212-215): page index and byte offset
within the page. -/
structure TableAddress where
  PageNum : Nat
  ByteOffset : Nat
deriving DecidableEq

structure Pager where
  pageCache : Nat → Nat → Nat
  cacheIndex : Nat → Bool
  file : List Nat
  fileReadSize : Nat

/-- `NewPager`: fresh zeroed page cache, empty loaded-flag map, and the
opened file's byte length recorded as `fileReadSize`.  The model takes the
file's current byte content where Go takes a path (opening creates an
empty file, so a fresh database is `NewPager []`). -/
def NewPager (f : List Nat) : Pager :=
  { pageCache := fun _ _ => 0
    cacheIndex := fun _ => false
    file := f
    fileReadSize := f.length }

/-- `Pager.cachePage`: seek to `pageNum * actualPageSize`, read up to
`actualPageSize` bytes into a zero-filled buffer (a short read or EOF
leaves the tail zero), and copy the whole buffer into the page slot.
`List.getD _ _ 0` is exactly "file byte if before EOF, else the buffer's
zero fill". -/
def Pager.cachePage (p : Pager) (pageNum : Nat) : Pager :=
  { p with
    pageCache := fun q j =>
      if q = pageNum ∧ j < actualPageSize then
        p.file.getD (pageNum * actualPageSize + j) 0
      else p.pageCache q j }

/-- `Pager.checkPage` instrumented with the list of page indices loaded
from disk by this call: `[]` when the page was already cached, `[pageNum]`
when this call performed the one disk read. -/
def Pager.checkPageL (p : Pager) (pageNum : Nat) : Pager × List Nat :=
  if p.cacheIndex pageNum then (p, [])
  else
    ({ p.cachePage pageNum with
        cacheIndex := fun q => if q = pageNum then true else p.cacheIndex q },
     [pageNum])

/-- `Pager.checkPage`: load the page on first reference, then mark it. -/
def Pager.checkPage (p : Pager) (pageNum : Nat) : Pager :=
  (p.checkPageL pageNum).1

/-- `Pager.Write`: ensure the page is cached, then copy the record bytes
into the page slot at the byte offset, ignoring input bytes from index
`rowSize` on (the loop breaks at `i >= rowSize`). -/
def Pager.Write (p : Pager) (address : TableAddress) (rowBytes : List Nat) : Pager :=
  let p1 := p.checkPage address.PageNum
  { p1 with
    pageCache := fun q j =>
      if q = address.PageNum ∧ address.ByteOffset ≤ j ∧
          j < address.ByteOffset + min rowBytes.length rowSize then
        rowBytes.getD (j - address.ByteOffset) 0
      else p1.pageCache q j }

/-- `Pager.Read`: ensure the page is cached, then copy `rowSize` bytes
out of the page slot starting at the byte offset.  Returns the updated
pager (the load side effect) with the bytes. -/
def Pager.ReadRow (p : Pager) (address : TableAddress) : Pager × List Nat :=
  let p1 := p.checkPage address.PageNum
  (p1, (List.range rowSize).map fun i => p1.pageCache address.PageNum (address.ByteOffset + i))

/-- Overwrite `bs` into `f` starting at byte `off`, extending the file as
needed (a seek past EOF followed by a write fills the gap with zeros). -/
def writeAt (f : List Nat) (off : Nat) (bs : List Nat) : List Nat :=
  (f.take off ++ List.replicate (off - f.length) 0) ++ bs ++ f.drop (off + bs.length)

/-- `Pager.Flush`: seek to `pageIdx * actualPageSize` and write the first
`writeSize` bytes of that page's in-memory buffer to the file. -/
def Pager.Flush (p : Pager) (pageIdx writeSize : Nat) : Pager :=
  { p with
    file := writeAt p.file (pageIdx * actualPageSize)
      ((List.range writeSize).map fun j => p.pageCache pageIdx j) }

/-! ### Table (sql.go lines 221-311) -/

structure Table where
  pager : Pager
  numRows : Nat

/-- `NewTable`: open a pager on the file and recover
`numRows = fileReadSize / rowSize` (integer division). -/
def NewTable (f : List Nat) : Table :=
  let pager := NewPager f
  { pager := pager, numRows := pager.fileReadSize / rowSize }

/-- `Table.FetchAddress`: `pageNum = rowNum / rowsPerPage`,
`byteOffset = (rowNum % rowsPerPage) * rowSize`.  The receiver is unused,
exactly as in the source. -/
def Table.FetchAddress (_t : Table) (rowNum : Nat) : TableAddress :=
  { PageNum := rowNum / rowsPerPage
    ByteOffset := rowNum % rowsPerPage * rowSize }

/-- `Table.NextRowAddress`: the address of row `numRows`. -/
def Table.NextRowAddress (t : Table) : TableAddress :=
  t.FetchAddress t.numRows

/-- `Table.Append`: write the serialized row at the next row address and
increment `numRows`.  The second component is the returned Go `error`,
which the source always leaves `nil` (`none`): no capacity check is made. -/
def Table.Append (t : Table) (row : Row) : Table × Option String :=
  ({ pager := t.pager.Write t.NextRowAddress row.Serialize
     numRows := t.numRows + 1 },
   none)

/-- Append each row of a list in order (the test helper `WriteRecords`
shape: repeated `Table.Append`). -/
def Table.appendAll (t : Table) : List Row → Table
  | [] => t
  | r :: rs => ((t.Append r).1).appendAll rs

/-- `Table.FetchRow`: read `rowSize` bytes at the address and decode.
Returns the updated table (page-load side effect) with the row. -/
def Table.FetchRow (t : Table) (address : TableAddress) : Table × Row :=
  let pr := t.pager.ReadRow address
  ({ t with pager := pr.1 }, DeserializeRow pr.2)

/-- The `for i := 0; i < pageCount; i++ { Flush(i, actualPageSize) }` loop
of `Table.Close`: flush full pages `0 .. n-1` in order. -/
def flushPages (p : Pager) : Nat → Pager
  | 0 => p
  | n + 1 => (flushPages p n).Flush n actualPageSize

/-- `Table.Close`: flush every full page, then the partial tail page with
`(numRows % rowsPerPage) * rowSize` bytes, then close the file.  Returns
the final file content. -/
def Table.Close (t : Table) : List Nat :=
  let pageCount := t.numRows / rowsPerPage
  let p1 := flushPages t.pager pageCount
  let p2 := p1.Flush pageCount (t.numRows % rowsPerPage * rowSize)
  p2.file

/-! ### Cursor (sql.go lines 315-354)

Go's `Cursor` holds a pointer to its `Table`, so `numRows` is read live at
each call; the embedding renders the pointer dereference as an explicit
table argument to each cursor operation. -/

structure Cursor where
  rowIndex : Int
deriving DecidableEq

/-- `Cursor.BeyondTable`: `rowIndex >= numRows || rowIndex < 0`. -/
def Cursor.BeyondTable (c : Cursor) (t : Table) : Bool :=
  decide ((t.numRows : Int) ≤ c.rowIndex) || decide (c.rowIndex < 0)

/-- `Cursor.Advance`: increment the position, return the moved cursor and
`!BeyondTable()`. -/
def Cursor.Advance (c : Cursor) (t : Table) : Cursor × Bool :=
  let c2 : Cursor := { rowIndex := c.rowIndex + 1 }
  (c2, !(c2.BeyondTable t))

/-- `NewCursor`: Go zero-initialises `rowIndex` to `0`, then the
`if`/`else if` chain sets `0` for "start", `-1` for "iterator",
`numRows - 1` for "end", and leaves the zero value for anything else. -/
def NewCursor (t : Table) (mode : String) : Cursor :=
  if mode = "start" then { rowIndex := 0 }
  else if mode = "iterator" then { rowIndex := -1 }
  else if mode = "end" then { rowIndex := (t.numRows : Int) - 1 }
  else { rowIndex := 0 }

/-! ### Pager operation traces

A reachable sequence of pager operations, instrumented with the page
indices loaded from disk, to state the load-once cache contract.  The
`fileChange` operation models an external modification of the backing
file (something other than this Pager rewriting the file). -/

inductive PagerOp where
  | readOp (address : TableAddress)
  | writeOp (address : TableAddress) (rowBytes : List Nat)
  | flushOp (pageIdx writeSize : Nat)
  | fileChange (f : List Nat)
deriving DecidableEq

/-- One pager operation: resulting pager state and the list of page
indices this operation read from disk. -/
def PagerOp.step (p : Pager) : PagerOp → Pager × List Nat
  | .readOp a => ((p.ReadRow a).1, (p.checkPageL a.PageNum).2)
  | .writeOp a bs => (p.Write a bs, (p.checkPageL a.PageNum).2)
  | .flushOp i n => (p.Flush i n, [])
  | .fileChange f => ({ p with file := f }, [])

/-- Run a sequence of pager operations, concatenating the disk-read logs. -/
def runOps (p : Pager) : List PagerOp → Pager × List Nat
  | [] => (p, [])
  | op :: ops =>
      let s1 := op.step p
      let s2 := runOps s1.1 ops
      (s2.1, s1.2 ++ s2.2)

/-- Recognise the memory-only write operation. -/
def PagerOp.isWriteOp : PagerOp → Bool
  | .writeOp _ _ => true
  | _ => false

/-! ## Theorems -/

set_option maxRecDepth 1000000

/-- Claim C1 (code-bug evidence): `Table.Append` performs no capacity
check.  At a table whose `numRows` already equals
`tableMaxRows = rowsPerPage * tableMaxPages = 1400`, appending a row still
returns a `nil` error and increments `numRows` to 1401 — it does not fail
with `CapacityExceeded` and does not leave `numRows` unchanged.  Indeed
for every table state whatsoever, `Append` returns `nil` and increments
`numRows` by exactly one. -/
theorem c1_append_never_fails :
    ((Table.mk (NewPager []) tableMaxRows).Append (NewRow 1 [] [])).2 = none ∧
    ((Table.mk (NewPager []) tableMaxRows).Append (NewRow 1 [] [])).1.numRows = 1401 ∧
    (∀ (t : Table) (r : Row), (t.Append r).2 = none ∧ (t.Append r).1.numRows = t.numRows + 1) :=
  ⟨rfl, rfl, fun _ _ => ⟨rfl, rfl⟩⟩

/-- Claim C4: `Table.FetchAddress n` is `{PageNum := n / rowsPerPage,
ByteOffset := (n % rowsPerPage) * rowSize}` with `rowsPerPage = 14` and
`rowSize = 291`; in particular address 0 is page 0 offset 0 and address
14 is page 1 offset 0; and the function is pure — it ignores the table
(in particular `numRows`), so there is no bounds check. -/
theorem c4_fetch_address :
    (∀ (t : Table) (n : Nat),
      t.FetchAddress n =
        { PageNum := n / rowsPerPage, ByteOffset := n % rowsPerPage * rowSize }) ∧
    rowsPerPage = 14 ∧ rowSize = 291 ∧
    (∀ t : Table,
      t.FetchAddress 0 = { PageNum := 0, ByteOffset := 0 } ∧
      t.FetchAddress 14 = { PageNum := 1, ByteOffset := 0 }) ∧
    (∀ (t t' : Table) (n : Nat), t.FetchAddress n = t'.FetchAddress n) :=
  ⟨fun _ _ => rfl, rfl, rfl, fun _ => ⟨rfl, rfl⟩, fun _ _ _ => rfl⟩

/-- Claim C7: a buffer shorter than `rowSize` = 291 bytes cannot be
decoded (the Go parameter type `*[291]byte` rejects it — `DeserializeRow?`
returns `none`, the embedding of that static contract failure), and every
buffer of exactly 291 bytes decodes successfully to a `Row`. -/
theorem c7_decode_domain :
    (∀ b : List Nat, b.length < rowSize → DeserializeRow? b = none) ∧
    (∀ b : List Nat, b.length = rowSize → ∃ r : Row, DeserializeRow? b = some r) := by
  constructor
  · intro b h
    have hne : b.length ≠ rowSize := Nat.ne_of_lt h
    simp [DeserializeRow?, hne]
  · intro b h
    exact ⟨DeserializeRow b, by simp [DeserializeRow?, h]⟩

/-- Witness for C7: the empty buffer is short and is rejected; a 291-byte
buffer decodes to a row. -/
theorem c7_witness :
    (([] : List Nat).length < rowSize ∧ DeserializeRow? [] = none) ∧
    ((List.replicate 291 0).length = rowSize ∧
      ∃ r : Row, DeserializeRow? (List.replicate 291 0) = some r) :=
  ⟨⟨by decide, c7_decode_domain.1 [] (by decide)⟩,
   ⟨by decide, c7_decode_domain.2 (List.replicate 291 0) (by decide)⟩⟩

/-- Claim C8: cursor construction puts the position at 0 ("start" mode),
`numRows - 1` ("end" mode) or -1 ("iterator" mode); `Advance` increments
the position by one and returns `true` exactly when the new position lies
in `[0, numRows)`; `BeyondTable` is `true` exactly when the position is
negative or at least `numRows`; and `numRows` is read from the table
passed at call time, so a row appended after the cursor was built is
visible: position `numRows` is beyond the old table but within the
appended-to table. -/
theorem c8_cursor_semantics :
    (∀ t : Table,
      (NewCursor t "start").rowIndex = 0 ∧
      (NewCursor t "end").rowIndex = (t.numRows : Int) - 1 ∧
      (NewCursor t "iterator").rowIndex = -1) ∧
    (∀ (t : Table) (c : Cursor),
      (c.Advance t).1.rowIndex = c.rowIndex + 1 ∧
      ((c.Advance t).2 = true ↔ 0 ≤ c.rowIndex + 1 ∧ c.rowIndex + 1 < (t.numRows : Int))) ∧
    (∀ (t : Table) (c : Cursor),
      c.BeyondTable t = true ↔ (c.rowIndex < 0 ∨ (t.numRows : Int) ≤ c.rowIndex)) ∧
    (∀ (t : Table) (r : Row),
      Cursor.BeyondTable { rowIndex := (t.numRows : Int) } t = true ∧
      Cursor.BeyondTable { rowIndex := (t.numRows : Int) } (t.Append r).1 = false) := by
  refine ⟨fun t => ⟨rfl, rfl, rfl⟩, fun t c => ⟨rfl, ?_⟩, fun t c => ?_, fun t r => ⟨?_, ?_⟩⟩
  all_goals simp [Cursor.Advance, Cursor.BeyondTable, Table.Append]
  all_goals omega

/-- Claim C9: `NewCursor` never rejects its mode string; any mode other
than "start", "iterator" and "end" leaves the zero-initialised position
0, identical to "start" mode. -/
theorem c9_cursor_unknown_mode (t : Table) (mode : String)
    (h1 : mode ≠ "start") (h2 : mode ≠ "iterator") (h3 : mode ≠ "end") :
    NewCursor t mode = NewCursor t "start" := by
  simp [NewCursor, h1, h2, h3]

/-- Witness for C9: the unknown mode "backward" behaves as "start". -/
theorem c9_witness :
    ("backward" ≠ "start" ∧ "backward" ≠ "iterator" ∧ "backward" ≠ "end") ∧
    NewCursor (NewTable []) "backward" = NewCursor (NewTable []) "start" :=
  ⟨⟨by decide, by decide, by decide⟩,
   c9_cursor_unknown_mode (NewTable []) "backward" (by decide) (by decide) (by decide)⟩

/-! ### Frame lemmas about `Pager.Write` -/

/-- `checkPage` never touches the backing file. -/
lemma checkPage_file (p : Pager) (n : Nat) : (p.checkPage n).file = p.file := by
  simp only [Pager.checkPage, Pager.checkPageL, Pager.cachePage]
  split <;> rfl

/-- `checkPage` never changes `fileReadSize`. -/
lemma checkPage_fileReadSize (p : Pager) (n : Nat) :
    (p.checkPage n).fileReadSize = p.fileReadSize := by
  simp only [Pager.checkPage, Pager.checkPageL, Pager.cachePage]
  split <;> rfl

/-- `Pager.Write` never touches the backing file. -/
lemma write_file (p : Pager) (a : TableAddress) (bs : List Nat) :
    (p.Write a bs).file = p.file := by
  simp only [Pager.Write]
  exact checkPage_file p a.PageNum

/-- Claim C6: `Pager.Write` mutates only the in-memory page cache: a
single write, and any sequence of write operations with no intervening
flush, leaves the backing file's bytes unchanged. -/
theorem c6_write_memory_only :
    (∀ (p : Pager) (a : TableAddress) (bs : List Nat), (p.Write a bs).file = p.file) ∧
    (∀ (p : Pager) (ops : List PagerOp), (∀ op ∈ ops, op.isWriteOp = true) →
      (runOps p ops).1.file = p.file) := by
  refine ⟨write_file, fun p ops h => ?_⟩
  induction ops generalizing p with
  | nil => rfl
  | cons op ops ih =>
      have hop : op.isWriteOp = true := h op (List.mem_cons_self op ops)
      have hops : ∀ o ∈ ops, o.isWriteOp = true := fun o ho => h o (List.mem_cons_of_mem op ho)
      cases op with
      | writeOp a bs =>
          simpa [runOps, PagerOp.step, write_file] using ih (p.Write a bs) hops
      | readOp a => simp [PagerOp.isWriteOp] at hop
      | flushOp i n => simp [PagerOp.isWriteOp] at hop
      | fileChange f => simp [PagerOp.isWriteOp] at hop

/-- Witness for C6: a sequence of two writes leaves a one-byte file
untouched. -/
theorem c6_witness :
    (∀ op ∈ [PagerOp.writeOp ⟨0, 0⟩ [1, 2], PagerOp.writeOp ⟨0, 291⟩ [3]],
      op.isWriteOp = true) ∧
    (runOps (NewPager [9])
      [PagerOp.writeOp ⟨0, 0⟩ [1, 2], PagerOp.writeOp ⟨0, 291⟩ [3]]).1.file = [9] :=
  ⟨by decide,
   (c6_write_memory_only.2 (NewPager [9])
     [PagerOp.writeOp ⟨0, 0⟩ [1, 2], PagerOp.writeOp ⟨0, 291⟩ [3]] (by decide)).trans rfl⟩

/-- Claim C10 counterexample: `Pager.Write` at an address of a page that
is not yet cached first loads the whole page from the file, so a byte of
the page buffer *outside* the written range can change.  Concretely, on a
pager over the one-byte file `[7]`, writing the single byte 5 at page 0
offset 291 changes the page byte at offset 0 from 0 to 7 — it does not
keep its prior value, refuting the claim as stated. -/
theorem c10_cex :
    (NewPager [7]).pageCache 0 0 = 0 ∧
    ((NewPager [7]).Write ⟨0, 291⟩ [5]).pageCache 0 0 = 7 ∧
    ¬ (((NewPager [7]).Write ⟨0, 291⟩ [5]).pageCache 0 0 =
        (NewPager [7]).pageCache 0 0) := by
  refine ⟨rfl, by decide, by decide⟩

/-- Claim C10 (amended): `Pager.Write` leaves every other page slot
unchanged unconditionally; on a page that is already cached (every state
after the page's first reference), every byte of the page outside
`[ByteOffset, ByteOffset + min(len(bytes), rowSize))` keeps its prior
value; and input bytes beyond index `rowSize - 1` are silently ignored.
(When the target page is not yet cached, the write first lazily loads the
page from the file, which may change out-of-range bytes of that one
slot — the counterexample `c10_cex`.) -/
theorem c10_write_frame :
    (∀ (p : Pager) (a : TableAddress) (bs : List Nat) (q j : Nat), q ≠ a.PageNum →
      (p.Write a bs).pageCache q j = p.pageCache q j) ∧
    (∀ (p : Pager) (a : TableAddress) (bs : List Nat) (j : Nat),
      p.cacheIndex a.PageNum = true →
      (j < a.ByteOffset ∨ a.ByteOffset + min bs.length rowSize ≤ j) →
      (p.Write a bs).pageCache a.PageNum j = p.pageCache a.PageNum j) ∧
    (∀ (p : Pager) (a : TableAddress) (bs : List Nat),
      p.Write a bs = p.Write a (bs.take rowSize)) := by
  refine ⟨?_, ?_, ?_⟩
  · intro p a bs q j hq
    have h1 : ¬(q = a.PageNum ∧ a.ByteOffset ≤ j ∧
        j < a.ByteOffset + min bs.length rowSize) := fun h => hq h.1
    have h2 : ¬(q = a.PageNum ∧ j < actualPageSize) := fun h => hq h.1
    have step1 : (p.Write a bs).pageCache q j =
        (p.checkPage a.PageNum).pageCache q j := if_neg h1
    have step2 : (p.checkPage a.PageNum).pageCache q j = p.pageCache q j := by
      by_cases hf : p.cacheIndex a.PageNum
      · simp [Pager.checkPage, Pager.checkPageL, hf]
      · simp only [Pager.checkPage, Pager.checkPageL, hf, Bool.false_eq_true,
          if_false, Pager.cachePage]
        exact if_neg h2
    exact step1.trans step2
  · intro p a bs j hload hout
    have hcp : p.checkPage a.PageNum = p := by
      simp [Pager.checkPage, Pager.checkPageL, hload]
    have hneg : ¬(a.PageNum = a.PageNum ∧ a.ByteOffset ≤ j ∧
        j < a.ByteOffset + min bs.length rowSize) := by
      rintro ⟨-, h1, h2⟩
      omega
    calc (p.Write a bs).pageCache a.PageNum j
        = (p.checkPage a.PageNum).pageCache a.PageNum j := if_neg hneg
      _ = p.pageCache a.PageNum j := by rw [hcp]
  · intro p a bs
    simp only [Pager.Write]
    congr 1
    funext q j
    have hmin : min (bs.take rowSize).length rowSize = min bs.length rowSize := by
      simp [List.length_take]
      omega
    rw [hmin]
    split
    · rename_i h
      have hj : j - a.ByteOffset < rowSize := by omega
      rw [List.getD_eq_getElem?_getD, List.getD_eq_getElem?_getD,
        List.getElem?_take_of_lt hj]
    · rfl

/-- Witness for C10: on a pager with page 0 already cached, a write at
offset 0 of length 1 leaves byte 2 of page 0 unchanged. -/
theorem c10_witness :
    ((NewPager []).checkPage 0).cacheIndex 0 = true ∧
    (2 < (0 : Nat) ∨ 0 + min ([5] : List Nat).length rowSize ≤ 2) ∧
    (((NewPager []).checkPage 0).Write ⟨0, 0⟩ [5]).pageCache 0 2 =
      ((NewPager []).checkPage 0).pageCache 0 2 :=
  ⟨by decide, by decide,
   c10_write_frame.2.1 ((NewPager []).checkPage 0) ⟨0, 0⟩ [5] 2 (by decide) (by decide)⟩

/-! ### Load-once lemmas for the pager trace semantics -/

/-- No pager operation ever clears a loaded flag. -/
lemma step_flag_mono (op : PagerOp) (p : Pager) (n : Nat)
    (h : p.cacheIndex n = true) : (op.step p).1.cacheIndex n = true := by
  cases op with
  | readOp a =>
      simp only [PagerOp.step, Pager.ReadRow, Pager.checkPage, Pager.checkPageL]
      split
      · exact h
      · simp [h]
  | writeOp a bs =>
      simp only [PagerOp.step, Pager.Write, Pager.checkPage, Pager.checkPageL]
      split
      · exact h
      · simp [h]
  | flushOp i m => exact h
  | fileChange f => exact h

/-- Per-operation disk-read accounting: a loaded page is never read again,
a single operation reads any page at most once, and a page that was read
ends up flagged as loaded. -/
lemma step_count (op : PagerOp) (p : Pager) (n : Nat) :
    (p.cacheIndex n = true → (op.step p).2.count n = 0) ∧
    (op.step p).2.count n ≤ 1 ∧
    (1 ≤ (op.step p).2.count n → (op.step p).1.cacheIndex n = true) := by
  cases op with
  | readOp a =>
      simp only [PagerOp.step, Pager.ReadRow, Pager.checkPage, Pager.checkPageL]
      by_cases hf : p.cacheIndex a.PageNum
      · simp [hf]
      · by_cases hn : n = a.PageNum
        · subst hn
          simp [hf, List.count_singleton]
        · simp [hf, List.count_singleton', Ne.symm hn]
  | writeOp a bs =>
      simp only [PagerOp.step, Pager.Write, Pager.checkPage, Pager.checkPageL]
      by_cases hf : p.cacheIndex a.PageNum
      · simp [hf]
      · by_cases hn : n = a.PageNum
        · subst hn
          simp [hf, List.count_singleton]
        · simp [hf, List.count_singleton', Ne.symm hn]
  | flushOp i m => simp [PagerOp.step]
  | fileChange f => simp [PagerOp.step]

/-- Over any operation sequence, a page already flagged loaded is never
read from disk again. -/
lemma runOps_count_loaded (ops : List PagerOp) (p : Pager) (n : Nat)
    (h : p.cacheIndex n = true) : (runOps p ops).2.count n = 0 := by
  induction ops generalizing p with
  | nil => simp [runOps]
  | cons op ops ih =>
      have h1 : (op.step p).2.count n = 0 := (step_count op p n).1 h
      have h2 : (op.step p).1.cacheIndex n = true := step_flag_mono op p n h
      simp only [runOps, List.count_append, h1, ih (op.step p).1 h2]

/-- Over any operation sequence, each page index is read from disk at most
once. -/
lemma runOps_count_le (ops : List PagerOp) (p : Pager) (n : Nat) :
    (runOps p ops).2.count n ≤ 1 := by
  induction ops generalizing p with
  | nil => simp [runOps]
  | cons op ops ih =>
      have hstep := step_count op p n
      simp only [runOps, List.count_append]
      by_cases hc : 1 ≤ (op.step p).2.count n
      · have h2 : (op.step p).1.cacheIndex n = true := hstep.2.2 hc
        have h3 := runOps_count_loaded ops (op.step p).1 n h2
        omega
      · have h0 : (op.step p).2.count n = 0 := by omega
        have := ih (op.step p).1
        omega

/-- Claim C5: starting from a freshly opened pager, any sequence of pager
operations (reads, writes, flushes, and even external file changes)
performs at most one disk read per page index; and once a page is flagged
loaded, a read of any address in it performs no disk access and its
result is independent of the backing file's content — the in-memory slot
is authoritative. -/
theorem c5_load_once :
    (∀ (f : List Nat) (ops : List PagerOp) (n : Nat),
      (runOps (NewPager f) ops).2.count n ≤ 1) ∧
    (∀ (p : Pager) (a : TableAddress) (g : List Nat),
      p.cacheIndex a.PageNum = true →
      (p.checkPageL a.PageNum).2 = [] ∧
      (p.ReadRow a).1 = p ∧
      (({ p with file := g } : Pager).ReadRow a).2 = (p.ReadRow a).2) := by
  constructor
  · intro f ops n
    exact runOps_count_le ops (NewPager f) n
  · intro p a g hload
    refine ⟨by simp [Pager.checkPageL, hload], ?_, ?_⟩
    · simp [Pager.ReadRow, Pager.checkPage, Pager.checkPageL, hload]
    · simp [Pager.ReadRow, Pager.checkPage, Pager.checkPageL, hload]

/-- Witness for C5: a double read of page 0 from a fresh pager loads it
once; with page 0 cached, a read is served from memory whatever the file
now holds. -/
theorem c5_witness :
    ((runOps (NewPager [4]) [PagerOp.readOp ⟨0, 0⟩, PagerOp.readOp ⟨0, 5⟩]).2.count 0 ≤ 1) ∧
    ((NewPager [4]).checkPage 0).cacheIndex 0 = true ∧
    ((((NewPager [4]).checkPage 0).checkPageL 0).2 = [] ∧
      (((NewPager [4]).checkPage 0).ReadRow ⟨0, 0⟩).1 = (NewPager [4]).checkPage 0 ∧
      (({ (NewPager [4]).checkPage 0 with file := [8, 8] } : Pager).ReadRow ⟨0, 0⟩).2 =
        (((NewPager [4]).checkPage 0).ReadRow ⟨0, 0⟩).2) :=
  ⟨c5_load_once.1 [4] [PagerOp.readOp ⟨0, 0⟩, PagerOp.readOp ⟨0, 5⟩] 0,
   by decide,
   c5_load_once.2 ((NewPager [4]).checkPage 0) ⟨0, 0⟩ [8, 8] (by decide)⟩

/-! ### File-length lemmas for close/reopen -/

/-- Length of an in-place file write: the file grows exactly to cover the
written range. -/
lemma writeAt_length (f : List Nat) (off : Nat) (bs : List Nat) :
    (writeAt f off bs).length = max f.length (off + bs.length) := by
  simp only [writeAt, List.length_append, List.length_take, List.length_replicate,
    List.length_drop]
  omega

/-- `Append` never touches the backing file and increments `numRows`. -/
lemma append_file (t : Table) (r : Row) :
    (t.Append r).1.pager.file = t.pager.file ∧ (t.Append r).1.numRows = t.numRows + 1 :=
  ⟨write_file t.pager t.NextRowAddress r.Serialize, rfl⟩

/-- Appending a list of rows never touches the backing file and adds the
list's length to `numRows`. -/
lemma appendAll_file (rows : List Row) (t : Table) :
    (t.appendAll rows).pager.file = t.pager.file ∧
      (t.appendAll rows).numRows = t.numRows + rows.length := by
  induction rows generalizing t with
  | nil => simp [Table.appendAll]
  | cons r rs ih =>
      have h1 := append_file t r
      have h2 := ih (t.Append r).1
      refine ⟨h2.1.trans h1.1, ?_⟩
      rw [Table.appendAll, h2.2, h1.2, List.length_cons]
      omega

/-- Flushing full pages 0 .. n-1 onto an empty file yields exactly
`n * actualPageSize` bytes. -/
lemma flushPages_length (p : Pager) (n : Nat) (h : p.file.length = 0) :
    (flushPages p n).file.length = n * actualPageSize := by
  induction n with
  | zero => simpa [flushPages] using h
  | succ m ih =>
      have hstep : (flushPages p (m + 1)).file.length =
          max (flushPages p m).file.length (m * actualPageSize + actualPageSize) := by
        simp [flushPages, Pager.Flush, writeAt_length]
      have h3 : actualPageSize = 4074 := rfl
      rw [hstep, ih, h3]
      omega

/-- `flushPages` leaves the page cache untouched. -/
lemma flushPages_pageCache (p : Pager) (n : Nat) :
    (flushPages p n).pageCache = p.pageCache := by
  induction n with
  | zero => rfl
  | succ m ih => simp [flushPages, Pager.Flush, ih]

/-- Closing a table whose backing file is still empty produces a file of
exactly `numRows * rowSize` bytes. -/
lemma close_length (t : Table) (h : t.pager.file.length = 0) :
    t.Close.length = t.numRows * rowSize := by
  have hfull := flushPages_length t.pager (t.numRows / rowsPerPage) h
  simp only [Table.Close, Pager.Flush, writeAt_length, List.length_map,
    List.length_range, hfull]
  have h1 : rowsPerPage = 14 := rfl
  have h2 : rowSize = 291 := rfl
  have h3 : actualPageSize = 4074 := rfl
  rw [h1, h2, h3]
  omega

/-- Claim C3: `NewTable` recovers `numRows` as the file byte length
divided by `rowSize` = 291 (integer division, silently flooring a partial
row), so appending `K` rows (within the page-array bounds) to a fresh
table, closing, and reopening yields `numRows = K`. -/
theorem c3_rowcount_recovery :
    (∀ rows : List Row, rows.length < tableMaxRows →
      (NewTable ((Table.appendAll (NewTable []) rows).Close)).numRows = rows.length) ∧
    (∀ f : List Nat, (NewTable f).numRows = f.length / rowSize) := by
  constructor
  · intro rows _hcap
    have hfile : ((NewTable []).appendAll rows).pager.file.length = 0 := by
      rw [(appendAll_file rows (NewTable [])).1]
      rfl
    have h0 : (NewTable []).numRows = 0 := rfl
    have hrows : ((NewTable []).appendAll rows).numRows = rows.length := by
      rw [(appendAll_file rows (NewTable [])).2, h0]
      omega
    have hclose := close_length ((NewTable []).appendAll rows) hfile
    show ((NewTable []).appendAll rows).Close.length / rowSize = rows.length
    rw [hclose, hrows]
    have h291 : rowSize = 291 := rfl
    rw [h291]
    omega
  · intro f
    rfl

/-- Witness for C3: one appended row, closed and reopened, is recovered. -/
theorem c3_witness :
    ([NewRow 1 [] []] : List Row).length < tableMaxRows ∧
    (NewTable ((Table.appendAll (NewTable []) [NewRow 1 [] []]).Close)).numRows = 1 :=
  ⟨by decide, c3_rowcount_recovery.1 [NewRow 1 [] []] (by decide)⟩

/-! ### Codec round-trip lemmas -/

/-- Big-endian `int32` encode/decode round trip on the `int32` range. -/
lemma int32_roundtrip (id : Int) (h1 : -2147483648 ≤ id) (h2 : id < 2147483648) :
    decodeInt32 (int32be id) = id := by
  have hnn : (((id % 4294967296).toNat : Int)) = id % 4294967296 :=
    Int.toNat_of_nonneg (Int.emod_nonneg id (by norm_num))
  have hlt : id % 4294967296 < 4294967296 := Int.emod_lt_of_pos id (by norm_num)
  simp only [int32be, decodeInt32, List.getD_cons_zero, List.getD_cons_succ]
  have hn32 : (id % 4294967296).toNat < 4294967296 := by omega
  have hdigits : (id % 4294967296).toNat / 16777216 % 256 * 16777216 +
      (id % 4294967296).toNat / 65536 % 256 * 65536 +
      (id % 4294967296).toNat / 256 % 256 * 256 +
      (id % 4294967296).toNat % 256 = (id % 4294967296).toNat := by
    omega
  rw [hdigits]
  split
  · omega
  · omega

/-- `getD` after `set` at the written index. -/
lemma getD_set_self : ∀ (l : List Nat) (i v : Nat), i < l.length →
    (l.set i v).getD i 0 = v
  | [], i, v, h => by simp at h
  | _ :: _, 0, v, _ => rfl
  | a :: l, i + 1, v, h => by
      show (a :: l.set i v).getD (i + 1) 0 = v
      rw [List.getD_cons_succ]
      exact getD_set_self l i v (by simpa using h)

/-- `getD` after `set` at any other index. -/
lemma getD_set_ne : ∀ (l : List Nat) (i j v : Nat), i ≠ j →
    (l.set i v).getD j 0 = l.getD j 0
  | [], _, _, _, _ => rfl
  | _ :: _, 0, 0, _, h => absurd rfl h
  | a :: l, 0, j + 1, v, _ => by
      show (v :: l).getD (j + 1) 0 = (a :: l).getD (j + 1) 0
      rw [List.getD_cons_succ, List.getD_cons_succ]
  | _ :: _, _ + 1, 0, _, _ => rfl
  | a :: l, i + 1, j + 1, v, h => by
      show (a :: l.set i v).getD (j + 1) 0 = (a :: l).getD (j + 1) 0
      rw [List.getD_cons_succ, List.getD_cons_succ]
      exact getD_set_ne l i j v (fun hh => h (by rw [hh]))

/-- Reading anywhere in a zero-filled buffer gives zero. -/
lemma getD_replicate_zero : ∀ (n j : Nat), (List.replicate n (0 : Nat)).getD j 0 = 0
  | 0, _ => rfl
  | _ + 1, 0 => rfl
  | n + 1, j + 1 => by
      show (List.replicate n (0 : Nat)).getD j 0 = 0
      exact getD_replicate_zero n j

/-- The `NewRow` filling loop preserves the field's fixed length. -/
lemma fillField_length : ∀ (s f : List Nat) (off cap : Nat), f.length = cap →
    (fillField f off cap s).length = cap
  | [], _, _, _, h => h
  | c :: rest, f, off, cap, h => by
      rw [fillField]
      split
      · exact h
      · exact fillField_length rest _ _ _ (by rw [List.length_set]; exact h)

/-- On all-ASCII input (each rune below 128) the `NewRow` filling loop
writes the rune values at consecutive offsets: position `j` holds the
input byte `j - off` when `off ≤ j < off + len(input)`, else its prior
content. -/
lemma fillField_ascii_getD (s : List Nat) :
    ∀ (f : List Nat) (off cap : Nat), (∀ c ∈ s, c < 128) → f.length = cap →
    ∀ j, j < cap → (fillField f off cap s).getD j 0 =
      if off ≤ j ∧ j < off + s.length then s.getD (j - off) 0 else f.getD j 0 := by
  induction s with
  | nil =>
      intro f off cap _ _ j _
      have hno : ¬(off ≤ j ∧ j < off + ([] : List Nat).length) := by
        simp only [List.length_nil]
        omega
      rw [if_neg hno]
      rfl
  | cons c rest ih =>
      intro f off cap hs hf j hj
      have hc : c < 128 := hs c (List.mem_cons_self _ _)
      have hrest : ∀ x ∈ rest, x < 128 := fun x hx => hs x (List.mem_cons_of_mem _ hx)
      have hu : utf8Len c = 1 := by simp [utf8Len, hc]
      have hcm : c % 256 = c := Nat.mod_eq_of_lt (by omega)
      rw [fillField]
      simp only [List.length_cons]
      by_cases hoc : cap ≤ off
      · rw [if_pos hoc, if_neg (by omega)]
      · rw [if_neg hoc, hu, hcm]
        rw [ih (f.set off c) (off + 1) cap hrest (by rw [List.length_set]; exact hf) j hj]
        by_cases he : j = off
        · subst he
          rw [if_neg (by omega), if_pos (by omega), getD_set_self f j c (by omega),
            Nat.sub_self, List.getD_cons_zero]
        · by_cases h2 : off ≤ j ∧ j < off + (rest.length + 1)
          · have hA : off + 1 ≤ j ∧ j < off + 1 + rest.length := by
              obtain ⟨x, y⟩ := h2
              constructor <;> omega
            rw [if_pos hA, if_pos h2]
            have hsub : j - off = (j - (off + 1)) + 1 := by omega
            rw [hsub, List.getD_cons_succ]
          · rw [if_neg (by omega), if_neg h2, getD_set_ne f off j c (fun hh => he hh.symm)]

/-- Splitting a serialized row back into its three sections. -/
lemma serialize_split (r : Row) (hu : r.Username.length = usernameSize)
    (he : r.Email.length = emailSize) :
    r.Serialize.take idSize = int32be r.ID ∧
    (r.Serialize.drop idSize).take usernameSize = r.Username ∧
    (r.Serialize.drop (idSize + usernameSize)).take emailSize = r.Email := by
  have hid : (int32be r.ID).length = idSize := rfl
  refine ⟨?_, ?_, ?_⟩
  · rw [Row.Serialize, List.append_assoc, List.take_left' hid]
  · rw [Row.Serialize, List.append_assoc, List.drop_left' hid, List.take_left' hu]
  · have h36 : (int32be r.ID ++ r.Username).length = idSize + usernameSize := by
      rw [List.length_append, hid, hu]
    rw [Row.Serialize, List.drop_left' h36, ← he]
    exact List.take_length r.Email

/-- Serialize/deserialize is the identity on well-formed rows. -/
lemma roundtrip_row (r : Row) (h : r.WF) : DeserializeRow r.Serialize = r := by
  obtain ⟨hlo, hhi, hu, he⟩ := h
  obtain ⟨hs1, hs2, hs3⟩ := serialize_split r hu he
  unfold DeserializeRow
  rw [hs1, hs2, hs3, int32_roundtrip r.ID hlo hhi]

/-- Claim C2 counterexample: the one-rune name "é" (code point 233) has
UTF-8 byte length 2 and bytes `[195, 169]`, but `NewRow` stores
`byte(rune)` = 233 at byte offset 0 (and nothing at offset 1), so the
round trip does not reproduce the input's first `N` = 2 bytes: the claim
as stated fails at `NewRow 1 "é" ""`. -/
theorem c2_cex :
    (utf8Encode [233]).length = 2 ∧
    ¬ ((DeserializeRow (NewRow 1 [233] []).Serialize).Username.take 2 =
        (utf8Encode [233]).take 2) := by
  constructor
  · rfl
  · decide

/-- Claim C2 (amended): (1) for every well-formed `Row` r (the Go struct
invariant: `int32` id, 32-byte username, 255-byte email),
`DeserializeRow (Serialize r)` reproduces r exactly — id, username and
email byte-for-byte; (2) for a row built by `NewRow` from ASCII strings
(every rune < 128, so rune index = byte index and `byte(rune)` is the
byte), the round trip reproduces the id and each text field's first
`min(N, capacity)` bytes (N = input length; capacities 32 and 255), with
all remaining bytes zero.  (For non-ASCII input the stored bytes differ
from the input's UTF-8 bytes — see the counterexample.) -/
theorem c2_roundtrip :
    (∀ r : Row, r.WF → DeserializeRow r.Serialize = r) ∧
    (∀ (id : Int) (name email : List Nat),
      -2147483648 ≤ id → id < 2147483648 →
      (∀ c ∈ name, c < 128) → (∀ c ∈ email, c < 128) →
      (DeserializeRow (NewRow id name email).Serialize).ID = id ∧
      (∀ j, j < usernameSize →
        (DeserializeRow (NewRow id name email).Serialize).Username.getD j 0 =
          if j < name.length then name.getD j 0 else 0) ∧
      (∀ j, j < emailSize →
        (DeserializeRow (NewRow id name email).Serialize).Email.getD j 0 =
          if j < email.length then email.getD j 0 else 0)) := by
  refine ⟨roundtrip_row, ?_⟩
  intro id name email h1 h2 hn he
  have hwf : (NewRow id name email).WF :=
    ⟨h1, h2, fillField_length name _ 0 usernameSize (by simp),
      fillField_length email _ 0 emailSize (by simp)⟩
  rw [roundtrip_row _ hwf]
  refine ⟨rfl, ?_, ?_⟩
  · intro j hj
    show (fillField (List.replicate usernameSize 0) 0 usernameSize name).getD j 0 = _
    rw [fillField_ascii_getD name (List.replicate usernameSize 0) 0 usernameSize hn
      (by simp) j hj]
    by_cases hcase : j < name.length
    · rw [if_pos ⟨Nat.zero_le j, by omega⟩, if_pos hcase, Nat.sub_zero]
    · rw [if_neg (by omega), if_neg hcase, getD_replicate_zero]
  · intro j hj
    show (fillField (List.replicate emailSize 0) 0 emailSize email).getD j 0 = _
    rw [fillField_ascii_getD email (List.replicate emailSize 0) 0 emailSize he
      (by simp) j hj]
    by_cases hcase : j < email.length
    · rw [if_pos ⟨Nat.zero_le j, by omega⟩, if_pos hcase, Nat.sub_zero]
    · rw [if_neg (by omega), if_neg hcase, getD_replicate_zero]

/-- Witness for C2: a concrete well-formed row round-trips to itself, and
`NewRow 7 "hi" "a"` (ASCII) round-trips with its id and first username
byte reproduced. -/
theorem c2_witness :
    ((Row.mk 5 (List.replicate 32 1) (List.replicate 255 2)).WF ∧
      DeserializeRow (Row.mk 5 (List.replicate 32 1) (List.replicate 255 2)).Serialize =
        Row.mk 5 (List.replicate 32 1) (List.replicate 255 2)) ∧
    ((∀ c ∈ [104, 105], c < 128) ∧
      (DeserializeRow (NewRow 7 [104, 105] [97]).Serialize).ID = 7 ∧
      (DeserializeRow (NewRow 7 [104, 105] [97]).Serialize).Username.getD 0 0 =
        (if 0 < ([104, 105] : List Nat).length then ([104, 105] : List Nat).getD 0 0 else 0)) :=
  ⟨⟨by decide, c2_roundtrip.1 (Row.mk 5 (List.replicate 32 1) (List.replicate 255 2)) (by decide)⟩,
   ⟨by decide,
    (c2_roundtrip.2 7 [104, 105] [97] (by decide) (by decide) (by decide) (by decide)).1,
    (c2_roundtrip.2 7 [104, 105] [97] (by decide) (by decide) (by decide) (by decide)).2.1 0
      (by decide)⟩⟩

end Charvel
